import Mathlib

/-!
Verification development for the PII detection-and-redaction engine
(`src/lib/API/PDF_IMG_to_TXT.py`, class `AdvancedPIIRedactor`).

Embedding conventions:
* Python text buffers are `List Char` (sequences of code points); slices
  `text[a:b]` become `(text.drop a).take (b - a)`, which has the same
  clamping behaviour as Python slicing.
* Every confidence constant in the program (0.1, 0.2, 0.6, 0.7, 0.8, 1.0)
  is a multiple of one tenth, and every score the engine computes —
  `min(1.0, 0.7 + 0.2·k)` and `min(1.0, score + (4 - priority)·0.1)` —
  stays on that grid. Confidences are therefore embedded exactly as
  integers counting tenths (`ℤ`, value × 10): 0.7 is `7`, the cap 1.0 is
  `10`, the default threshold 0.6 is `6`. Addition, `min` and order are
  preserved by this scaling, so every statement below transfers verbatim.
* The regex engine (`re.finditer`) and the spaCy model are external
  collaborators: pattern matches and NLP entities enter the embedding as
  explicit inputs, exactly as `detect_pii` consumes them.
* A Python validator that may raise is `String → Option Bool`, where
  `none` stands for a raised exception.
-/

namespace Redact

/-! ## Character and list utilities -/

/-- A character removed by `re.sub(r'[-\s]', '', number)`: hyphen or
whitespace. -/
def isSepChar (c : Char) : Bool := c = '-' || c.isWhitespace

/-- ASCII decimal digit, the model of Python's `str.isdigit` on the inputs
that arise here. -/
def isAsciiDigit (c : Char) : Bool := '0' ≤ c && c ≤ '9'

/-- Numeric value of a digit character (`int(digit)`). -/
def digitVal (c : Char) : Nat := c.toNat - '0'.toNat

/-- `str.lower()` on a character buffer. -/
def lowerChars (s : List Char) : List Char := s.map Char.toLower

/-- `str.strip()`: drop whitespace at both ends. -/
def pyStrip (s : List Char) : List Char :=
  (s.dropWhile Char.isWhitespace).reverse.dropWhile Char.isWhitespace |>.reverse

/-- Does `hay` start with `needle`? -/
def beginsWith : List Char → List Char → Bool
  | [], _ => true
  | _ :: _, [] => false
  | a :: as, b :: bs => a = b && beginsWith as bs

/-- Python's substring test `needle in hay`. -/
def containsChars (needle : List Char) : List Char → Bool
  | [] => beginsWith needle []
  | c :: rest => beginsWith needle (c :: rest) || containsChars needle rest

/-- Number of start positions at which `needle` occurs in `hay` (used only
by the specification-side reading of the context scorer). -/
def countOccurrences (needle : List Char) : List Char → Nat
  | [] => if beginsWith needle [] then 1 else 0
  | c :: rest =>
    (if beginsWith needle (c :: rest) then 1 else 0) + countOccurrences needle rest

/-- First value bound to key `k` in an association list, or `d`. -/
def assocGetD (l : List (String × α)) (k : String) (d : α) : α :=
  match l with
  | [] => d
  | (k', v) :: rest => if k' = k then v else assocGetD rest k d

/-! ## Verhoeff checksum and the Aadhaar validator (`_validate_aadhaar`) -/

/-- The 10×10 Verhoeff multiplication table, verbatim from the source. -/
def multTable : List (List Nat) :=
  [[0, 1, 2, 3, 4, 5, 6, 7, 8, 9],
   [1, 2, 3, 4, 0, 6, 7, 8, 9, 5],
   [2, 3, 4, 0, 1, 7, 8, 9, 5, 6],
   [3, 4, 0, 1, 2, 8, 9, 5, 6, 7],
   [4, 0, 1, 2, 3, 9, 5, 6, 7, 8],
   [5, 9, 8, 7, 6, 0, 4, 3, 2, 1],
   [6, 5, 9, 8, 7, 1, 0, 4, 3, 2],
   [7, 6, 5, 9, 8, 2, 1, 0, 4, 3],
   [8, 7, 6, 5, 9, 3, 2, 1, 0, 4],
   [9, 8, 7, 6, 5, 4, 3, 2, 1, 0]]

/-- The 8×10 Verhoeff permutation table, verbatim from the source. -/
def permTable : List (List Nat) :=
  [[0, 1, 2, 3, 4, 5, 6, 7, 8, 9],
   [1, 5, 7, 6, 2, 8, 3, 0, 9, 4],
   [5, 8, 0, 3, 7, 9, 6, 1, 4, 2],
   [8, 9, 1, 6, 0, 4, 3, 5, 2, 7],
   [9, 4, 5, 3, 1, 2, 6, 8, 7, 0],
   [4, 2, 8, 6, 5, 7, 3, 9, 0, 1],
   [2, 7, 9, 3, 8, 0, 6, 4, 1, 5],
   [7, 0, 4, 6, 9, 1, 3, 2, 5, 8]]

/-- One loop iteration:
`checksum = multiplication_table[checksum][permutation_table[i % 8][int(digit)]]`. -/
def verhoeffStep (checksum i d : Nat) : Nat :=
  (multTable.getD checksum []).getD ((permTable.getD (i % 8) []).getD d 0) 0

/-- The checksum loop of `_validate_aadhaar`: fold over the reversed digit
string, indices 0-based from the end, checksum initialised to 0. -/
def verhoeffChecksum (digits : List Nat) : Nat :=
  digits.reverse.enum.foldl (fun c p => verhoeffStep c p.1 p.2) 0

/-- `_validate_aadhaar` (src/lib/API/PDF_IMG_to_TXT.py lines 267–306):
strip `[-\s]`, require exactly 12 digits, reject the two explicit
degenerate strings `'0'*12` and `'1'*12`, then require Verhoeff
checksum 0. -/
def validateAadhaar (number : String) : Bool :=
  let digits := number.data.filter (fun c => !isSepChar c)
  if digits.length ≠ 12 || !digits.all isAsciiDigit then false
  else if digits = List.replicate 12 '0' || digits = List.replicate 12 '1' then false
  else verhoeffChecksum (digits.map digitVal) = 0

/-- The claim's reading of the national-ID validator: stripped form exactly
12 digits, not the same digit twelve times (any repeated digit), and
Verhoeff checksum 0. -/
def claimAadhaarValid (number : String) : Prop :=
  (number.data.filter fun c => !isSepChar c).length = 12 ∧
    (∀ c ∈ number.data.filter fun c => !isSepChar c, isAsciiDigit c) ∧
    (¬ ∃ d : Char, number.data.filter (fun c => !isSepChar c) = List.replicate 12 d) ∧
    verhoeffChecksum ((number.data.filter fun c => !isSepChar c).map digitVal) = 0

/-- Amended reading: only the two degenerate strings the code actually
checks (`'0'*12`, `'1'*12`) are excluded. -/
def amendedAadhaarValid (number : String) : Prop :=
  (number.data.filter fun c => !isSepChar c).length = 12 ∧
    (∀ c ∈ number.data.filter fun c => !isSepChar c, isAsciiDigit c) ∧
    number.data.filter (fun c => !isSepChar c) ≠ List.replicate 12 '0' ∧
    number.data.filter (fun c => !isSepChar c) ≠ List.replicate 12 '1' ∧
    verhoeffChecksum ((number.data.filter fun c => !isSepChar c).map digitVal) = 0

/-! ## Configuration (`_load_config`) -/

/-- The two configuration fields the detection engine reads (the threshold
in integer tenths). -/
structure Config where
  confidenceThreshold : ℤ
  contextWindow : Nat
deriving DecidableEq

/-- Defaults from `_load_config`: `"confidence_threshold": 0.6` (6 tenths),
`"context_window": 150`. -/
def defaultConfig : Config := { confidenceThreshold := 6, contextWindow := 150 }

/-! ## Context keywords (`_load_context_keywords`) -/

/-- The keyword table, verbatim from the source. -/
def contextKeywords : List (String × List String) :=
  [("AADHAAR", ["aadhaar", "aadhar", "uid", "unique", "identification", "uidai", "enrollment", "demographic"]),
   ("PAN", ["pan", "permanent", "account", "number", "income", "tax", "assessee", "taxpayer"]),
   ("DRIVING_LICENSE", ["driving", "license", "dl", "motor", "vehicle", "transport", "rto", "issued"]),
   ("PASSPORT", ["passport", "travel", "document", "republic", "india", "issued", "valid"]),
   ("VOTER_ID", ["voter", "election", "epic", "electoral", "commission", "booth", "constituency"]),
   ("CREDIT_CARD", ["credit", "debit", "card", "visa", "master", "amex", "discover", "valid", "expires"]),
   ("BANK_ACCOUNT", ["account", "bank", "saving", "current", "deposit", "branch", "holder"]),
   ("IFSC", ["ifsc", "micr", "branch", "code", "routing", "swift", "bank"]),
   ("MOBILE", ["mobile", "phone", "contact", "cell", "number", "registered", "primary"]),
   ("EMAIL", ["email", "mail", "address", "contact", "registered", "primary", "alternate"]),
   ("DOB", ["birth", "dob", "born", "date", "age", "year", "month", "day"]),
   ("ADDRESS", ["address", "residence", "house", "flat", "plot", "street", "road", "city", "state", "country"]),
   ("PINCODE", ["pin", "pincode", "postal", "zip", "area", "code"]),
   ("NAME", ["name", "first", "last", "middle", "full", "surname", "given", "family"]),
   ("FATHER_NAME", ["father", "dad", "papa", "parent", "guardian", "s/o", "son", "daughter"]),
   ("MOTHER_NAME", ["mother", "mom", "mama", "parent", "guardian", "d/o", "w/o", "wife"]),
   ("SPOUSE_NAME", ["spouse", "husband", "wife", "partner", "married", "w/o", "s/o"])]

/-- Priority tier of each pattern-registry category
(`_get_comprehensive_patterns`). -/
def registryPriorities : List (String × Nat) :=
  [("AADHAAR", 1), ("PAN", 1), ("DRIVING_LICENSE", 2), ("PASSPORT", 2),
   ("VOTER_ID", 2), ("CREDIT_CARD", 1), ("BANK_ACCOUNT", 2), ("IFSC", 2),
   ("MOBILE", 1), ("EMAIL", 1), ("DOB", 1), ("AGE", 3), ("PINCODE", 2),
   ("ADDRESS", 3), ("NAME", 3), ("FATHER_NAME", 2), ("MOTHER_NAME", 2),
   ("BIOMETRIC_ID", 3), ("HEALTH_ID", 2)]

/-! ## Context scorer (`_calculate_context_score`) -/

/-- The lower-cased symmetric context window
`text[max(0, start-w) : min(len(text), end+w)].lower()`. -/
def windowText (cfg : Config) (text : List Char) (s e : Nat) : List Char :=
  let cs := s - cfg.contextWindow
  let ce := min text.length (e + cfg.contextWindow)
  lowerChars ((text.drop cs).take (ce - cs))

/-- `_calculate_context_score`, in tenths: 0.2 (= 2) per category keyword
that occurs in the window (a membership test per keyword, not an occurrence
count), base 0.7 (= 7), capped at 1.0 (= 10). -/
def calculateContextScore (cfg : Config) (text : List Char) (s e : Nat)
    (piiType : String) : ℤ :=
  let ctx := windowText cfg text s e
  let keywords := assocGetD contextKeywords piiType []
  let keywordScore : ℤ :=
    keywords.foldl (fun acc kw => if containsChars kw.data ctx then acc + 2 else acc) 0
  min 10 (7 + keywordScore)

/-- The claim's reading of the context scorer: `min(1, 0.7 + 0.2·k)` (in
tenths `min 10 (7 + 2·k)`) where `k` is the number of occurrences of the
category's keywords in the window (each repetition of a keyword counted). -/
def claimContextScore (cfg : Config) (text : List Char) (s e : Nat)
    (piiType : String) : ℤ :=
  let ctx := windowText cfg text s e
  let k := ((assocGetD contextKeywords piiType []).map
    (fun kw => countOccurrences kw.data ctx)).sum
  min 10 (7 + 2 * (k : ℤ))

/-! ## Candidate generation (`detect_pii`, stage 1) -/

/-- One span of a regex match object: text and codepoint offsets. -/
structure GroupSpan where
  text : String
  startPos : Nat
  endPos : Nat
deriving DecidableEq

/-- One `re.finditer` match: the whole match, and the first capturing group
when the pattern defines one (`match.groups()` non-empty). -/
structure ReMatch where
  whole : GroupSpan
  group1 : Option GroupSpan
deriving DecidableEq

/-- `match.group(1) if match.groups() else match.group()` (and likewise for
`start`/`end`). -/
def pickSpan (m : ReMatch) : GroupSpan := m.group1.getD m.whole

/-- A candidate / resolved span as stored in the `detect_pii` result
(`{"text", "start", "end", "confidence"}`; the stored `"pattern"` field
never influences behaviour and is omitted). -/
structure PiiMatch where
  text : String
  startPos : Nat
  endPos : Nat
  confidence : ℤ
deriving DecidableEq

/-- One pattern-registry category as `detect_pii` consumes it: its name,
priority tier, optional validator (which may raise: `none` result), and the
concatenated `re.finditer` results of all its patterns, in pattern order.
The regex engine is an external collaborator, so the matches are an input. -/
structure CatEntry where
  name : String
  priority : Nat
  validator : Option (String → Option Bool)
  rawMatches : List ReMatch

/-- The body of the per-match loop of `detect_pii` stage 1: group
selection, context score, validator call guarded by `try/except` (a raised
exception becomes `False`), priority boost, threshold test. -/
def processOneMatch (cfg : Config) (text : List Char) (cat : CatEntry)
    (m : ReMatch) : Option PiiMatch :=
  let g := pickSpan m
  let contextScore := calculateContextScore cfg text g.startPos g.endPos cat.name
  let isValid : Bool :=
    match cat.validator with
    | some v => (v g.text).getD false
    | none => true
  let priorityBoost : ℤ := 4 - (cat.priority : ℤ)
  let finalConfidence := min 10 (contextScore + priorityBoost)
  if isValid && decide (cfg.confidenceThreshold < finalConfidence)
  then some ⟨g.text, g.startPos, g.endPos, finalConfidence⟩
  else none

/-- All candidates of one category, in match order. -/
def processCategory (cfg : Config) (text : List Char) (cat : CatEntry) :
    List PiiMatch :=
  cat.rawMatches.filterMap (processOneMatch cfg text cat)

/-! ## Overlap removal (`_remove_overlapping_matches`) -/

/-- `match["start"] < existing["end"] and match["end"] > existing["start"]`:
the half-open intervals intersect. -/
def overlapsB (a b : PiiMatch) : Bool :=
  decide (a.startPos < b.endPos) && decide (b.startPos < a.endPos)

/-- Insert `x` into `l` directly before the first element that `x` strictly
precedes (so `x` lands after every earlier-inserted element it ties with). -/
def insAfter (strictlyBefore : α → α → Bool) (x : α) : List α → List α
  | [] => [x]
  | y :: ys => if strictlyBefore x y then x :: y :: ys else y :: insAfter strictlyBefore x ys

/-- A stable sort: elements are inserted left to right, each behind its
ties. Python's `sorted` is guaranteed stable, and every stable sort of a
list by the same key produces the same output, so this models
`sorted(matches, key=..., reverse=True)` exactly. -/
def stableSortBy (strictlyBefore : α → α → Bool) (l : List α) : List α :=
  l.foldl (fun acc x => insAfter strictlyBefore x acc) []

/-- Descending confidence, the sort key of `_remove_overlapping_matches`. -/
def byConfDesc (a b : PiiMatch) : Bool := decide (b.confidence < a.confidence)

/-- The greedy acceptance loop: keep a match iff it overlaps nothing kept
so far. -/
def greedyFilter : List PiiMatch → List PiiMatch → List PiiMatch
  | acc, [] => acc
  | acc, m :: rest =>
    if acc.any (fun e => overlapsB m e)
    then greedyFilter acc rest
    else greedyFilter (acc ++ [m]) rest

/-- `_remove_overlapping_matches` (lines 608–627): early return on the
empty list, stable sort by confidence descending, greedy acceptance. -/
def removeOverlappingMatches (ms : List PiiMatch) : List PiiMatch :=
  if ms.isEmpty then ms
  else greedyFilter [] (stableSortBy byConfDesc ms)

/-- The claim's sort key: confidence descending, ties by earliest start,
then by longest span. -/
def claimBefore (a b : PiiMatch) : Bool :=
  decide (b.confidence < a.confidence) ||
    (decide (a.confidence = b.confidence) &&
      (decide (a.startPos < b.startPos) ||
        (decide (a.startPos = b.startPos) &&
          decide (b.endPos - b.startPos < a.endPos - a.startPos))))

/-- The claim's reference overlap-removal procedure. -/
def claimRemoveOverlapping (ms : List PiiMatch) : List PiiMatch :=
  greedyFilter [] (stableSortBy claimBefore ms)

/-! ## NLP merge and refinement (`detect_pii` stages 2–3) -/

/-- The `detect_pii` result: an insertion-ordered dictionary from category
name to match list. -/
abbrev Detections := List (String × List PiiMatch)

/-- First binding of key `k`, the dictionary lookup. -/
def assocFind (l : Detections) (k : String) : Option (List PiiMatch) :=
  match l with
  | [] => none
  | (k', v) :: rest => if k' = k then some v else assocFind rest k

/-- `detected_pii[entity_type].extend(entities)`: append to the value at
the first binding of `k`. -/
def assocExtend (l : Detections) (k : String) (es : List PiiMatch) : Detections :=
  match l with
  | [] => []
  | (k', v) :: rest =>
    if k' = k then (k', v ++ es) :: rest else (k', v) :: assocExtend rest k es

/-- Stage 1 of `detect_pii`: per category, collect candidates, and if any
survive, bind the overlap-resolved list under the category's name. -/
def stage1 (cfg : Config) (text : List Char) (cats : List CatEntry) : Detections :=
  cats.foldl (fun acc cat =>
    let ms := processCategory cfg text cat
    if ms.isEmpty then acc
    else acc ++ [(cat.name, removeOverlappingMatches ms)]) []

/-- Stage 2 of `detect_pii`: merge the auxiliary (NLP) entity dictionary —
new keys are appended, existing keys are extended, with no overlap
resolution. -/
def mergeNlp (det : Detections) (nlp : Detections) : Detections :=
  nlp.foldl (fun acc p =>
    match assocFind acc p.1 with
    | none => acc ++ [p]
    | some _ => assocExtend acc p.1 p.2) det

/-- The false-positive denylist of `_is_false_positive`, verbatim. -/
def falsePositives : List (String × List String) :=
  [("NAME", ["name", "first", "last", "full", "mr", "mrs", "ms", "dr", "sir", "madam"]),
   ("MOBILE", ["0000000000", "1111111111", "9999999999"]),
   ("EMAIL", ["email@example.com", "test@test.com"]),
   ("ADDRESS", ["address", "street", "city", "state"])]

/-- `_is_false_positive`: lower-cased, stripped text in the category's
denylist. -/
def isFalsePositive (text : String) (piiType : String) : Bool :=
  let t := pyStrip (lowerChars text.data)
  (assocGetD falsePositives piiType []).any (fun fp => decide (fp.data = t))

/-- The per-match filter of `_refine_detections`: drop NAME/ADDRESS matches
whose stripped text is shorter than 3 characters, and denylisted texts. -/
def keepMatch (piiType : String) (m : PiiMatch) : Bool :=
  !(decide (piiType = "NAME" ∨ piiType = "ADDRESS") &&
      decide ((pyStrip m.text.data).length < 3)) &&
    !isFalsePositive m.text piiType

/-- Stage 3 of `detect_pii` (`_refine_detections`): filter every category's
list, dropping categories that become empty. -/
def refineDetections (det : Detections) : Detections :=
  det.foldl (fun acc p =>
    let r := p.2.filter (keepMatch p.1)
    if r.isEmpty then acc else acc ++ [(p.1, r)]) []

/-- `detect_pii` (lines 522–583): empty text short-circuits to `{}`; stage
1 pattern detection per category, stage 2 NLP merge (an absent NLP model is
the empty dictionary), stage 3 refinement. -/
def detectPii (cfg : Config) (text : List Char) (cats : List CatEntry)
    (nlp : Detections) : Detections :=
  if text.isEmpty then []
  else refineDetections (mergeNlp (stage1 cfg text cats) nlp)

/-! ## Pure-text redaction (`_redact_text`) -/

/-- The block-mask character `"█"`. -/
def maskChar : Char := '█'

/-- One replacement
`redacted_text[:start] + "█" * (end - start) + redacted_text[end:]`.
`take`/`drop` clamp exactly as Python slicing does. -/
def maskRange (s : List Char) (a b : Nat) : List Char :=
  s.take a ++ List.replicate (b - a) maskChar ++ s.drop b

/-- Descending start offset, the sort key of `_redact_text`
(`key=lambda x: x["start"], reverse=True`). -/
def byStartDesc (a b : PiiMatch) : Bool := decide (b.startPos < a.startPos)

/-- The masking core of `_redact_text` (lines 844–857): flatten all
categories' matches, sort by start descending, apply the replacements
back to front. -/
def redactText (text : List Char) (piiData : Detections) : List Char :=
  let allMatches := piiData.foldl (fun acc p => acc ++ p.2) []
  (stableSortBy byStartDesc allMatches).foldl
    (fun acc m => maskRange acc m.startPos m.endPos) text

/-! ## Audit log (`_log_redaction`, `_redact_text`, `get_redaction_summary`) -/

/-- One redaction log entry (`_log_redaction`): timestamp and file paths,
per-category counts, total count, and per-match details in which the text
field is always the literal `"***REDACTED***"`. -/
structure LogEntry where
  timestamp : String
  inputFile : String
  outputFile : String
  piiDetected : List (String × Nat)
  totalPiiCount : Nat
  piiDetails : List (String × List (String × ℤ))
deriving DecidableEq

/-- `_log_redaction`'s construction of the entry it appends. -/
def mkLogEntry (ts inp outp : String) (piiData : Detections) : LogEntry :=
  { timestamp := ts
    inputFile := inp
    outputFile := outp
    piiDetected := piiData.map (fun p => (p.1, p.2.length))
    totalPiiCount := (piiData.map (fun p => p.2.length)).sum
    piiDetails := piiData.map
      (fun p => (p.1, p.2.map (fun m => ("***REDACTED***", m.confidence)))) }

/-- The observable effect of `_redact_text` on the text and the session
log, given the detection result: when no PII was detected the input file is
copied unchanged and the function returns early WITHOUT logging; otherwise
the masked text is written and exactly one entry is appended. The
timestamp and paths come from the environment. -/
def redactTextFile (ts inp outp : String) (text : List Char)
    (piiData : Detections) (log : List LogEntry) : List Char × List LogEntry :=
  if piiData.isEmpty then (text, log)
  else (redactText text piiData, log ++ [mkLogEntry ts inp outp piiData])

/-- Replace every stored match text by `f` of it, leaving offsets and
confidences alone — used to state that the audit log never depends on the
matched texts. -/
def mapMatchTexts (f : String → String) (piiData : Detections) : Detections :=
  piiData.map (fun p => (p.1, p.2.map (fun m => { m with text := f m.text })))

/-- `get_redaction_summary`'s result: either the `"No redactions performed
yet"` message object, or the totals plus the raw log. -/
inductive RedactionSummary where
  | noRedactions (message : String)
  | summary (totalFilesProcessed : Nat) (totalPiiRedacted : Nat)
      (piiTypesFound : List (String × Nat)) (redactionLog : List LogEntry)
deriving DecidableEq

/-- The dictionary update
`summary["pii_types_found"][pii_type] += count` (a missing key is first
created with value 0, i.e. appended at the end). -/
def bumpCount (acc : List (String × Nat)) (k : String) (c : Nat) :
    List (String × Nat) :=
  match acc with
  | [] => [(k, c)]
  | (k', c') :: rest =>
    if k' = k then (k', c' + c) :: rest else (k', c') :: bumpCount rest k c

/-- The aggregation loop of `get_redaction_summary`. -/
def aggregateCounts (logs : List LogEntry) : List (String × Nat) :=
  logs.foldl (fun acc log =>
    log.piiDetected.foldl (fun a p => bumpCount a p.1 p.2) acc) []

/-- `get_redaction_summary` (lines 921–940): the message object on an
empty log, else file count, total PII count, per-category totals, and the
log itself. -/
def getRedactionSummary (logs : List LogEntry) : RedactionSummary :=
  if logs.isEmpty then .noRedactions "No redactions performed yet"
  else .summary logs.length ((logs.map (fun l => l.totalPiiCount)).sum)
    (aggregateCounts logs) logs

/-- The total-files-processed value of a summary, when it has one. -/
def totalFilesOf : RedactionSummary → Option Nat
  | .noRedactions _ => none
  | .summary files _ _ _ => some files

/-- Sum of the counts recorded for category `k` in a count dictionary. -/
def countFor (l : List (String × Nat)) (k : String) : Nat :=
  ((l.filter (fun p => decide (p.1 = k))).map (fun p => p.2)).sum

end Redact

namespace Redact

/-! ## General lemmas about the embedded operations -/

/-- Unfolding the keyword loop of the context scorer: it adds 2 tenths per
keyword whose membership test succeeds. -/
theorem keywordScore_foldl (ctx : List Char) (l : List String) (a : ℤ) :
    l.foldl (fun acc kw => if containsChars kw.data ctx then acc + 2 else acc) a =
      a + 2 * (l.countP (fun kw => containsChars kw.data ctx) : ℤ) := by
  induction l generalizing a with
  | nil => simp
  | cons kw rest ih =>
    rw [List.foldl_cons, List.countP_cons, ih]
    by_cases h : containsChars kw.data ctx
    · simp [h]; ring
    · simp [h]

/-! ## C7 — the national-ID (Aadhaar) validator -/

/-- C7 counterexample: the stripped input `"333333333333"` is a repeated
single digit, so the claim requires the validator to return false; but its
Verhoeff checksum is 0 and the code only rejects the two degenerate strings
`'0'*12` and `'1'*12`, so `_validate_aadhaar` returns true. -/
theorem c7_counterexample :
    validateAadhaar "333333333333" = true ∧ ¬ claimAadhaarValid "333333333333" := by
  refine ⟨by decide, fun h => ?_⟩
  exact h.2.2.1 ⟨'3', by decide⟩

/-- Boolean characterisation of `_validate_aadhaar`: the if-chain
flattened to a conjunction of its five tests. -/
theorem validateAadhaar_eq (number : String) :
    validateAadhaar number =
      (decide ((number.data.filter fun c => !isSepChar c).length = 12) &&
        (number.data.filter fun c => !isSepChar c).all isAsciiDigit &&
        !decide (number.data.filter (fun c => !isSepChar c) = List.replicate 12 '0') &&
        !decide (number.data.filter (fun c => !isSepChar c) = List.replicate 12 '1') &&
        decide (verhoeffChecksum ((number.data.filter fun c => !isSepChar c).map digitVal) = 0)) := by
  by_cases h1 : (number.data.filter fun c => !isSepChar c).length = 12 <;>
    by_cases h2 : (number.data.filter fun c => !isSepChar c).all isAsciiDigit <;>
      by_cases h3 : number.data.filter (fun c => !isSepChar c) = List.replicate 12 '0' <;>
        by_cases h4 : number.data.filter (fun c => !isSepChar c) = List.replicate 12 '1' <;>
          simp [validateAadhaar, h1, h2, h3, h4]

/-- C7 amended: the validator returns true iff the stripped input is
exactly 12 digits, is not `'0'*12` and not `'1'*12` (these two degenerate
strings are the only repeated-digit patterns it excludes), and the Verhoeff
checksum over the reversed digit string is 0. -/
theorem c7_amended (number : String) :
    validateAadhaar number = true ↔ amendedAadhaarValid number := by
  rw [validateAadhaar_eq]
  simp only [amendedAadhaarValid, Bool.and_eq_true, decide_eq_true_eq,
    Bool.not_eq_true', decide_eq_false_iff_not, List.all_eq_true]
  tauto

/-! ## C3 — the context scorer -/

/-- C3 counterexample: with the default window, the span `[12,14)` of the
text `"phone phone 55"` has a window containing the MOBILE keyword
`"phone"` twice. The claim's occurrence-counting formula gives
`min(1.0, 0.7 + 0.2·2) = 1.0` (10 tenths) while the code, which scores
each keyword at most once (a membership test), returns 0.9 (9 tenths). -/
theorem c3_counterexample :
    calculateContextScore defaultConfig ("phone phone 55".data) 12 14 "MOBILE" = 9 ∧
    claimContextScore defaultConfig ("phone phone 55".data) 12 14 "MOBILE" = 10 ∧
    calculateContextScore defaultConfig ("phone phone 55".data) 12 14 "MOBILE" ≠
      claimContextScore defaultConfig ("phone phone 55".data) 12 14 "MOBILE" :=
  ⟨by decide, by decide, by decide⟩

/-- C3 amended: the context score equals `min(1.0, 0.7 + 0.2·k)` where `k`
is the number of DISTINCT keywords of the category that occur (at least
once, case-insensitively) in the window of configurable width (default
150) clamped to the buffer; repetitions of one keyword do not increase the
score. -/
theorem c3_amended (cfg : Config) (text : List Char) (s e : Nat) (piiType : String) :
    defaultConfig.contextWindow = 150 ∧
    calculateContextScore cfg text s e piiType =
      min 10 (7 + 2 * ((assocGetD contextKeywords piiType []).countP
        (fun kw => containsChars kw.data (windowText cfg text s e)) : ℤ)) := by
  refine ⟨rfl, ?_⟩
  simp only [calculateContextScore]
  rw [keywordScore_foldl]
  simp

/-! ## C5 — overlap removal -/

/-- C5 counterexample: two candidates of equal confidence 0.9, the earlier
span second in input order. The claim's tie-break (earliest start first)
accepts the span `[0,8)` and rejects `[5,10)`; the code's stable sort keeps
input order on ties, so it accepts `[5,10)` and rejects `[0,8)`. -/
theorem c5_counterexample :
    removeOverlappingMatches [⟨"A", 5, 10, 9⟩, ⟨"B", 0, 8, 9⟩] = [⟨"A", 5, 10, 9⟩] ∧
    claimRemoveOverlapping [⟨"A", 5, 10, 9⟩, ⟨"B", 0, 8, 9⟩] = [⟨"B", 0, 8, 9⟩] ∧
    removeOverlappingMatches [⟨"A", 5, 10, 9⟩, ⟨"B", 0, 8, 9⟩] ≠
      claimRemoveOverlapping [⟨"A", 5, 10, 9⟩, ⟨"B", 0, 8, 9⟩] :=
  ⟨by decide, by decide, by decide⟩

/-- Membership is invariant under `insAfter`. -/
theorem mem_insAfter (bf : α → α → Bool) (x y : α) (l : List α) :
    y ∈ insAfter bf x l ↔ y = x ∨ y ∈ l := by
  induction l with
  | nil => simp [insAfter]
  | cons z zs ih =>
    by_cases h : bf x z
    · simp only [insAfter, if_pos h, List.mem_cons]
    · simp only [insAfter, if_neg h, List.mem_cons, ih]; tauto

/-- `insAfter` by descending confidence preserves descending order. -/
theorem insAfter_byConfDesc_pairwise (x : PiiMatch) (l : List PiiMatch)
    (hl : l.Pairwise (fun a b => b.confidence ≤ a.confidence)) :
    (insAfter byConfDesc x l).Pairwise (fun a b => b.confidence ≤ a.confidence) := by
  induction l with
  | nil => simp [insAfter]
  | cons y ys ih =>
    rw [List.pairwise_cons] at hl
    by_cases h : byConfDesc x y
    · simp only [insAfter, if_pos h]
      simp only [byConfDesc, decide_eq_true_eq] at h
      refine List.Pairwise.cons ?_ (List.Pairwise.cons hl.1 hl.2)
      intro z hz
      rcases List.mem_cons.mp hz with rfl | hz
      · exact le_of_lt h
      · exact le_trans (hl.1 z hz) (le_of_lt h)
    · simp only [insAfter, if_neg h]
      simp only [byConfDesc, decide_eq_true_eq, not_lt] at h
      refine List.Pairwise.cons ?_ (ih hl.2)
      intro z hz
      rcases (mem_insAfter byConfDesc x z ys).mp hz with rfl | hz
      · exact h
      · exact hl.1 z hz

/-- Stability of one insertion: inserting `x` into a descending list leaves
every equal-confidence class unchanged except that `x` joins the end of its
own class. -/
theorem filter_insAfter_byConfDesc (x : PiiMatch) (l : List PiiMatch)
    (hl : l.Pairwise (fun a b => b.confidence ≤ a.confidence)) (c : ℤ) :
    (insAfter byConfDesc x l).filter (fun m => decide (m.confidence = c)) =
      if x.confidence = c
      then l.filter (fun m => decide (m.confidence = c)) ++ [x]
      else l.filter (fun m => decide (m.confidence = c)) := by
  induction l with
  | nil => simp only [insAfter, List.filter_cons, List.filter_nil]; split <;> simp_all
  | cons y ys ih =>
    rw [List.pairwise_cons] at hl
    by_cases h : byConfDesc x y
    · simp only [insAfter, if_pos h]
      simp only [byConfDesc, decide_eq_true_eq] at h
      by_cases hxc : x.confidence = c
      · -- everything in y :: ys has confidence < c, so the class filter is empty
        have hempty : (y :: ys).filter (fun m => decide (m.confidence = c)) = [] := by
          rw [List.filter_eq_nil_iff]
          intro a ha
          simp only [decide_eq_true_eq]
          rcases List.mem_cons.mp ha with rfl | ha
          · exact ne_of_lt (hxc ▸ h)
          · exact ne_of_lt (lt_of_le_of_lt (hl.1 a ha) (hxc ▸ h))
        rw [if_pos hxc, hempty]
        simp only [List.filter_cons]
        rw [List.filter_cons] at hempty
        by_cases hy : decide (y.confidence = c) = true
        · simp [hy] at hempty
        · simp only [hy, Bool.false_eq_true, if_neg, if_pos (by simpa using hxc)]
          simp only [if_neg (by simp [hy] : ¬(decide (y.confidence = c) = true))] at hempty ⊢
          rw [hempty]
          simp [hxc]
      · rw [if_neg hxc]
        simp only [List.filter_cons]
        simp [hxc]
    · simp only [insAfter, if_neg h]
      rw [List.filter_cons, List.filter_cons, ih hl.2]
      by_cases hxc : x.confidence = c
      · simp only [if_pos hxc]
        split <;> simp
      · simp only [if_neg hxc]

/-- The invariant of the sorting fold: starting from a descending
accumulator, the result is descending and each confidence class equals the
accumulator's class followed by the input's class in input order. -/
theorem stableSortBy_byConfDesc_foldl (ms : List PiiMatch) :
    ∀ acc, acc.Pairwise (fun a b => b.confidence ≤ a.confidence) →
      (ms.foldl (fun acc x => insAfter byConfDesc x acc) acc).Pairwise
          (fun a b => b.confidence ≤ a.confidence) ∧
        ∀ c : ℤ,
          (ms.foldl (fun acc x => insAfter byConfDesc x acc) acc).filter
              (fun m => decide (m.confidence = c)) =
            acc.filter (fun m => decide (m.confidence = c)) ++
              ms.filter (fun m => decide (m.confidence = c)) := by
  induction ms with
  | nil => intro acc hacc; simpa using hacc
  | cons x rest ih =>
    intro acc hacc
    have hins := insAfter_byConfDesc_pairwise x acc hacc
    obtain ⟨hp, hf⟩ := ih (insAfter byConfDesc x acc) hins
    refine ⟨hp, fun c => ?_⟩
    rw [List.foldl_cons] at *
    rw [hf c, filter_insAfter_byConfDesc x acc hacc c, List.filter_cons]
    by_cases hxc : x.confidence = c <;> simp [hxc]

/-- C5 amended: `_remove_overlapping_matches` sorts by final confidence
descending with a STABLE sort — candidates of equal confidence keep their
input order; there is no earliest-start or longest-span tie-break — and
then greedily accepts each candidate iff its interval intersects no
already-accepted interval. The sort is characterised uniquely: the result
is the greedy filter of a list that is descending in confidence and whose
restriction to each confidence value equals the input's restriction. -/
theorem c5_amended (ms : List PiiMatch) :
    removeOverlappingMatches ms = greedyFilter [] (stableSortBy byConfDesc ms) ∧
    (stableSortBy byConfDesc ms).Pairwise (fun a b => b.confidence ≤ a.confidence) ∧
    ∀ c : ℤ, (stableSortBy byConfDesc ms).filter (fun m => decide (m.confidence = c)) =
      ms.filter (fun m => decide (m.confidence = c)) := by
  obtain ⟨hp, hf⟩ := stableSortBy_byConfDesc_foldl ms [] (List.Pairwise.nil)
  refine ⟨?_, hp, fun c => by simpa using hf c⟩
  cases ms <;> rfl

/-! ## C8 — the audit-log frame effect of text redaction -/

/-- C8 counterexample: on a document in which no PII is detected,
`_redact_text` copies the file and returns before `_log_redaction` is ever
called, so NO log entry is appended — the claim's "exactly one log entry
per invocation, including one in which no PII is detected" fails. -/
theorem c8_counterexample :
    ¬ ((redactTextFile "t0" "in.txt" "out.txt" ("abc".data) [] []).2.length = 1) := by
  decide

/-- C8 amended: an invocation appends exactly one log entry iff some PII
was detected; with an empty detection result the log is unchanged (the file
is passed through). Log entries never depend on the matched span texts:
rewriting every stored text with an arbitrary function leaves the entry
unchanged (only counts, confidences and metadata are recorded, the detail
text field being the constant `"***REDACTED***"`). -/
theorem c8_amended (ts inp outp : String) (text : List Char)
    (piiData : Detections) (log : List LogEntry) (h : piiData ≠ [])
    (f : String → String) :
    (redactTextFile ts inp outp text piiData log).2 =
      log ++ [mkLogEntry ts inp outp piiData] ∧
    (redactTextFile ts inp outp text [] log).2 = log ∧
    mkLogEntry ts inp outp (mapMatchTexts f piiData) = mkLogEntry ts inp outp piiData := by
  refine ⟨?_, rfl, ?_⟩
  · simp [redactTextFile, h]
  · simp [mkLogEntry, mapMatchTexts, List.map_map, Function.comp_def]

/-- C8 witness. -/
theorem c8_witness :
    ([(("MOBILE" : String), [(⟨"9876543210", 0, 10, 10⟩ : PiiMatch)])] : Detections) ≠ [] ∧
    (redactTextFile "t0" "in.txt" "out.txt" ("9876543210".data)
        [("MOBILE", [⟨"9876543210", 0, 10, 10⟩])] []).2 =
      [] ++ [mkLogEntry "t0" "in.txt" "out.txt" [("MOBILE", [⟨"9876543210", 0, 10, 10⟩])]] ∧
    mkLogEntry "t0" "in.txt" "out.txt"
        (mapMatchTexts (fun _ => "X") [("MOBILE", [⟨"9876543210", 0, 10, 10⟩])]) =
      mkLogEntry "t0" "in.txt" "out.txt" [("MOBILE", [⟨"9876543210", 0, 10, 10⟩])] :=
  ⟨by decide,
    (c8_amended "t0" "in.txt" "out.txt" ("9876543210".data)
      [("MOBILE", [⟨"9876543210", 0, 10, 10⟩])] [] (by decide) (fun _ => "X")).1,
    (c8_amended "t0" "in.txt" "out.txt" ("9876543210".data)
      [("MOBILE", [⟨"9876543210", 0, 10, 10⟩])] [] (by decide) (fun _ => "X")).2.2⟩

/-! ## C9 — the session summary -/

/-- C9 counterexample: on an empty redaction log `get_redaction_summary`
returns only the message object, which carries no total-files-processed
value at all — the claim's "for every session state, including a session
with an empty redaction log" fails. -/
theorem c9_counterexample :
    getRedactionSummary [] = .noRedactions "No redactions performed yet" ∧
    totalFilesOf (getRedactionSummary []) ≠ some (List.length ([] : List LogEntry)) := by
  exact ⟨rfl, by decide⟩

/-- Bumping one key adds its count to exactly that key's total. -/
theorem countFor_bumpCount (acc : List (String × Nat)) (k : String) (c : Nat)
    (cat : String) :
    countFor (bumpCount acc k c) cat =
      countFor acc cat + (if k = cat then c else 0) := by
  induction acc with
  | nil =>
    simp only [bumpCount, countFor, List.filter_cons, List.filter_nil]
    by_cases h : k = cat <;> simp [h]
  | cons p rest ih =>
    obtain ⟨k', c'⟩ := p
    simp only [bumpCount]
    by_cases h : k' = k
    · subst h
      simp only [if_pos rfl, countFor, List.filter_cons]
      by_cases h2 : k' = cat <;> simp [h2] <;> try omega
    · rw [if_neg h]
      simp only [countFor, List.filter_cons] at *
      by_cases h2 : k' = cat <;> simp [h2, ih] <;> try omega

/-- The inner aggregation loop adds one entry's per-category counts. -/
theorem countFor_foldl_bump (l : List (String × Nat)) (cat : String) :
    ∀ acc, countFor (l.foldl (fun a p => bumpCount a p.1 p.2) acc) cat =
      countFor acc cat + countFor l cat := by
  induction l with
  | nil => intro acc; simp [countFor]
  | cons p rest ih =>
    intro acc
    rw [List.foldl_cons, ih, countFor_bumpCount]
    simp only [countFor, List.filter_cons]
    by_cases h : p.1 = cat <;> simp [h] <;> try omega

/-- The aggregation of `get_redaction_summary` sums each category's count
across all log entries. -/
theorem countFor_aggregateCounts (logs : List LogEntry) (cat : String) :
    countFor (aggregateCounts logs) cat =
      (logs.map (fun l => countFor l.piiDetected cat)).sum := by
  unfold aggregateCounts
  suffices h : ∀ acc, countFor (logs.foldl
      (fun acc log => log.piiDetected.foldl (fun a p => bumpCount a p.1 p.2) acc) acc) cat =
      countFor acc cat + (logs.map (fun l => countFor l.piiDetected cat)).sum by
    simpa [countFor] using h []
  induction logs with
  | nil => intro acc; simp
  | cons log rest ih =>
    intro acc
    rw [List.foldl_cons, ih, countFor_foldl_bump]
    simp; omega

/-- C9 amended: on a NONEMPTY log the summary's totals are as the claim
states — file count = number of entries, total PII = sum of the entries'
totals, and each category's total = the per-entry counts summed; on an
empty log the summary is only the message object (see the
counterexample). -/
theorem c9_amended (logs : List LogEntry) (h : logs ≠ []) :
    getRedactionSummary logs =
      .summary logs.length ((logs.map (fun l => l.totalPiiCount)).sum)
        (aggregateCounts logs) logs ∧
    ∀ cat : String, countFor (aggregateCounts logs) cat =
      (logs.map (fun l => countFor l.piiDetected cat)).sum := by
  refine ⟨?_, fun cat => countFor_aggregateCounts logs cat⟩
  simp [getRedactionSummary, h]

/-- C9 witness. -/
theorem c9_witness :
    ([⟨"t", "i", "o", [("A", 2)], 2, []⟩] : List LogEntry) ≠ [] ∧
    getRedactionSummary [⟨"t", "i", "o", [("A", 2)], 2, []⟩] =
      .summary ([⟨"t", "i", "o", [("A", 2)], 2, []⟩] : List LogEntry).length
        ((([⟨"t", "i", "o", [("A", 2)], 2, []⟩] : List LogEntry).map
          (fun l => l.totalPiiCount)).sum)
        (aggregateCounts [⟨"t", "i", "o", [("A", 2)], 2, []⟩])
        [⟨"t", "i", "o", [("A", 2)], 2, []⟩] ∧
    countFor (aggregateCounts [⟨"t", "i", "o", [("A", 2)], 2, []⟩]) "A" =
      (([⟨"t", "i", "o", [("A", 2)], 2, []⟩] : List LogEntry).map
        (fun l => countFor l.piiDetected "A")).sum :=
  ⟨by decide,
    (c9_amended [⟨"t", "i", "o", [("A", 2)], 2, []⟩] (by decide)).1,
    (c9_amended [⟨"t", "i", "o", [("A", 2)], 2, []⟩] (by decide)).2 "A"⟩

/-! ## C6 — pure-text masking -/

/-- One in-bounds replacement preserves the buffer length. -/
theorem maskRange_length (s : List Char) (a b : Nat) (hab : a ≤ b)
    (hb : b ≤ s.length) : (maskRange s a b).length = s.length := by
  simp only [maskRange, List.length_append, List.length_take, List.length_replicate,
    List.length_drop]
  omega

/-- Pointwise description of one in-bounds replacement: the mask character
inside `[a,b)`, the original character elsewhere. -/
theorem maskRange_getElem (s : List Char) (a b : Nat) (hab : a ≤ b)
    (hb : b ≤ s.length) (i : Nat) :
    (maskRange s a b)[i]? = if a ≤ i ∧ i < b then some maskChar else s[i]? := by
  have hta : (s.take a).length = a := by simp; omega
  have hlen2 : (s.take a ++ List.replicate (b - a) maskChar).length = b := by
    simp; omega
  unfold maskRange
  rw [List.getElem?_append, hlen2]
  by_cases h2 : i < b
  · rw [if_pos h2, List.getElem?_append, hta]
    by_cases h1 : i < a
    · rw [if_pos h1, if_neg (by omega)]
      simp [List.getElem?_take, h1]
    · rw [if_neg h1, if_pos (by omega)]
      have hlt : i - a < b - a := by omega
      simp [List.getElem?_replicate, hlt]
  · rw [if_neg h2, if_neg (by omega), List.getElem?_drop]
    congr 1
    omega

/-- The replacement fold preserves the buffer length when every span is in
bounds. -/
theorem foldl_maskRange_length (l : List PiiMatch) :
    ∀ text : List Char, (∀ m ∈ l, m.startPos ≤ m.endPos ∧ m.endPos ≤ text.length) →
      (l.foldl (fun acc m => maskRange acc m.startPos m.endPos) text).length =
        text.length := by
  induction l with
  | nil => intro text _; rfl
  | cons m rest ih =>
    intro text h
    have hm := h m (List.mem_cons_self m rest)
    rw [List.foldl_cons,
      ih (maskRange text m.startPos m.endPos)
        (fun m' hm' => by
          rw [maskRange_length text _ _ hm.1 hm.2]
          exact h m' (List.mem_cons_of_mem m hm')),
      maskRange_length text _ _ hm.1 hm.2]

/-- A position already masked stays masked through further in-bounds
replacements. -/
theorem foldl_maskRange_mask (l : List PiiMatch) :
    ∀ (text : List Char) (i : Nat),
      (∀ m ∈ l, m.startPos ≤ m.endPos ∧ m.endPos ≤ text.length) →
      text[i]? = some maskChar →
      (l.foldl (fun acc m => maskRange acc m.startPos m.endPos) text)[i]? =
        some maskChar := by
  induction l with
  | nil => intro _ _ _ hi; exact hi
  | cons m rest ih =>
    intro text i h hi
    have hm := h m (List.mem_cons_self m rest)
    rw [List.foldl_cons]
    refine ih (maskRange text m.startPos m.endPos) i
      (fun m' hm' => by
        rw [maskRange_length text _ _ hm.1 hm.2]
        exact h m' (List.mem_cons_of_mem m hm')) ?_
    rw [maskRange_getElem text _ _ hm.1 hm.2 i]
    split
    · rfl
    · exact hi

/-- Every position inside any span of the replacement list ends up
masked. -/
theorem foldl_maskRange_covers (l : List PiiMatch) :
    ∀ (text : List Char) (sp : PiiMatch) (i : Nat),
      (∀ m ∈ l, m.startPos ≤ m.endPos ∧ m.endPos ≤ text.length) →
      sp ∈ l → sp.startPos ≤ i → i < sp.endPos →
      (l.foldl (fun acc m => maskRange acc m.startPos m.endPos) text)[i]? =
        some maskChar := by
  induction l with
  | nil => intro _ _ _ _ hsp; cases hsp
  | cons m rest ih =>
    intro text sp i h hsp h1 h2
    have hm := h m (List.mem_cons_self m rest)
    have hrest : ∀ m' ∈ rest, m'.startPos ≤ m'.endPos ∧
        m'.endPos ≤ (maskRange text m.startPos m.endPos).length := fun m' hm' => by
      rw [maskRange_length text _ _ hm.1 hm.2]
      exact h m' (List.mem_cons_of_mem m hm')
    rw [List.foldl_cons]
    rcases List.mem_cons.mp hsp with rfl | hsp'
    · refine foldl_maskRange_mask rest (maskRange text sp.startPos sp.endPos) i hrest ?_
      rw [maskRange_getElem text _ _ hm.1 hm.2 i, if_pos ⟨h1, h2⟩]
    · exact ih (maskRange text m.startPos m.endPos) sp i hrest hsp' h1 h2

/-- Membership is invariant under the stable sort. -/
theorem mem_stableSortBy (bf : α → α → Bool) (l : List α) (x : α) :
    x ∈ stableSortBy bf l ↔ x ∈ l := by
  suffices h : ∀ acc, (x ∈ l.foldl (fun acc y => insAfter bf y acc) acc ↔
      x ∈ acc ∨ x ∈ l) by
    simpa [stableSortBy] using h []
  induction l with
  | nil => intro acc; simp
  | cons y ys ih =>
    intro acc
    rw [List.foldl_cons, ih, mem_insAfter]
    simp only [List.mem_cons]
    tauto

/-- Membership in the flattened match list of a detection dictionary. -/
theorem mem_flattenDetections (piiData : Detections) (x : PiiMatch) :
    x ∈ piiData.foldl (fun acc p => acc ++ p.2) [] ↔ ∃ p ∈ piiData, x ∈ p.2 := by
  suffices h : ∀ acc : List PiiMatch,
      (x ∈ piiData.foldl (fun acc p => acc ++ p.2) acc ↔
        x ∈ acc ∨ ∃ p ∈ piiData, x ∈ p.2) by
    simpa using h []
  induction piiData with
  | nil => intro acc; simp
  | cons p rest ih =>
    intro acc
    rw [List.foldl_cons, ih]
    simp only [List.mem_append, List.mem_cons]
    constructor
    · rintro (( h | h) | ⟨q, hq, hx⟩)
      · exact Or.inl h
      · exact Or.inr ⟨p, Or.inl rfl, h⟩
      · exact Or.inr ⟨q, Or.inr hq, hx⟩
    · rintro (h | ⟨q, (rfl | hq), hx⟩)
      · exact Or.inl (Or.inl h)
      · exact Or.inl (Or.inr hx)
      · exact Or.inr ⟨q, hq, hx⟩

/-- C6: when every resolved span `[s,e)` satisfies `s ≤ e ≤ length(text)`
(the ResolvedSpan bounds invariant), the masked output of `_redact_text`
has exactly the input's length, and every position inside any span holds
the mask character — each span's region is the mask repeated `e-s` times.
Replacements are applied in decreasing start order, and same-length
replacement keeps all offsets valid. -/
theorem c6_redactText (text : List Char) (piiData : Detections)
    (hb : ∀ p ∈ piiData, ∀ m ∈ p.2, m.startPos ≤ m.endPos ∧ m.endPos ≤ text.length) :
    (redactText text piiData).length = text.length ∧
    ∀ p ∈ piiData, ∀ m ∈ p.2, ∀ i, m.startPos ≤ i → i < m.endPos →
      (redactText text piiData)[i]? = some maskChar := by
  have hball : ∀ m ∈ stableSortBy byStartDesc (piiData.foldl (fun acc p => acc ++ p.2) []),
      m.startPos ≤ m.endPos ∧ m.endPos ≤ text.length := by
    intro m hm
    rw [mem_stableSortBy] at hm
    obtain ⟨p, hp, hmp⟩ := (mem_flattenDetections piiData m).mp hm
    exact hb p hp m hmp
  constructor
  · exact foldl_maskRange_length _ text hball
  · intro p hp m hm i h1 h2
    refine foldl_maskRange_covers _ text m i hball ?_ h1 h2
    rw [mem_stableSortBy]
    exact (mem_flattenDetections piiData m).mpr ⟨p, hp, hm⟩

/-- C6 witness. -/
theorem c6_witness :
    (∀ p ∈ ([(("X" : String), [(⟨"bc", 1, 3, 10⟩ : PiiMatch)])] : Detections),
      ∀ m ∈ p.2, m.startPos ≤ m.endPos ∧ m.endPos ≤ ("abcdef".data).length) ∧
    (redactText ("abcdef".data) [("X", [⟨"bc", 1, 3, 10⟩])]).length =
      ("abcdef".data).length ∧
    (redactText ("abcdef".data) [("X", [⟨"bc", 1, 3, 10⟩])])[1]? = some maskChar :=
  ⟨by decide,
    (c6_redactText ("abcdef".data) [("X", [⟨"bc", 1, 3, 10⟩])] (by decide)).1,
    (c6_redactText ("abcdef".data) [("X", [⟨"bc", 1, 3, 10⟩])] (by decide)).2
      ("X", [⟨"bc", 1, 3, 10⟩]) (by decide) ⟨"bc", 1, 3, 10⟩ (by decide) 1
      (by decide) (by decide)⟩

/-! ## C2 — validator exception containment -/

/-- Replace a validator that may raise by its contained version: a raised
exception (`none`) becomes the boolean `false` the `try/except` produces. -/
def totalizeValidator :
    Option (String → Option Bool) → Option (String → Option Bool)
  | none => none
  | some v => some (fun s => some ((v s).getD false))

/-- One match is processed identically whether its validator raises or
returns `false`. -/
theorem processOneMatch_totalize (cfg : Config) (text : List Char)
    (cat : CatEntry) (m : ReMatch) :
    processOneMatch cfg text { cat with validator := totalizeValidator cat.validator } m =
      processOneMatch cfg text cat m := by
  obtain ⟨name, priority, validator, raws⟩ := cat
  cases validator <;> rfl

/-- A whole category is processed identically under contained validators. -/
theorem processCategory_totalize (cfg : Config) (text : List Char) (cat : CatEntry) :
    processCategory cfg text { cat with validator := totalizeValidator cat.validator } =
      processCategory cfg text cat := by
  unfold processCategory
  have h : processOneMatch cfg text { cat with validator := totalizeValidator cat.validator } =
      processOneMatch cfg text cat := funext (processOneMatch_totalize cfg text cat)
  rw [h]

/-- Stage 1 is unchanged when every category's validator is contained. -/
theorem stage1_totalize (cfg : Config) (text : List Char) (cats : List CatEntry) :
    stage1 cfg text
        (cats.map (fun c => { c with validator := totalizeValidator c.validator })) =
      stage1 cfg text cats := by
  unfold stage1
  rw [List.foldl_map]
  have h : (fun (acc : Detections) (c : CatEntry) =>
      let ms := processCategory cfg text { c with validator := totalizeValidator c.validator }
      if ms.isEmpty then acc
      else acc ++ [({ c with validator := totalizeValidator c.validator }.name,
        removeOverlappingMatches ms)]) =
      (fun (acc : Detections) (c : CatEntry) =>
        let ms := processCategory cfg text c
        if ms.isEmpty then acc else acc ++ [(c.name, removeOverlappingMatches ms)]) := by
    funext acc c
    rw [processCategory_totalize]
  rw [h]

/-- C2: a raised validator exception is contained inside `detect_pii`'s
`try/except` — the candidate is treated as invalid (not emitted), and the
whole detection behaves exactly as if the validator had returned `false`,
so no exception ever reaches the caller and a result is produced for every
input. -/
theorem c2_validatorFault (cfg : Config) (text : List Char)
    (cats : List CatEntry) (nlp : Detections) (cat : CatEntry) (m : ReMatch)
    (v : String → Option Bool) (hv : cat.validator = some v)
    (hraise : v (pickSpan m).text = none) :
    processOneMatch cfg text cat m = none ∧
    detectPii cfg text cats nlp =
      detectPii cfg text
        (cats.map (fun c => { c with validator := totalizeValidator c.validator })) nlp := by
  constructor
  · simp [processOneMatch, hv, hraise]
  · unfold detectPii
    rw [stage1_totalize]

/-- C2 witness: a validator that raises on every input; its match is not
emitted and detection on the whole registry entry is the contained one. -/
theorem c2_witness :
    (⟨"MOBILE", 1, some (fun _ => none),
        [⟨⟨"9876543210", 0, 10⟩, none⟩]⟩ : CatEntry).validator =
      some (fun _ => none) ∧
    (fun _ : String => (none : Option Bool))
        (pickSpan ⟨⟨"9876543210", 0, 10⟩, none⟩).text = none ∧
    processOneMatch defaultConfig ("9876543210".data)
      ⟨"MOBILE", 1, some (fun _ => none), [⟨⟨"9876543210", 0, 10⟩, none⟩]⟩
      ⟨⟨"9876543210", 0, 10⟩, none⟩ = none :=
  ⟨rfl, rfl,
    (c2_validatorFault defaultConfig ("9876543210".data) [] []
      ⟨"MOBILE", 1, some (fun _ => none), [⟨⟨"9876543210", 0, 10⟩, none⟩]⟩
      ⟨⟨"9876543210", 0, 10⟩, none⟩ (fun _ => none) rfl rfl).1⟩

/-! ## C4 — the per-match emission rule -/

/-- The claim's extraction rule: the first capturing group when the
pattern defines one, otherwise the whole match. -/
def claimSpan (m : ReMatch) : GroupSpan :=
  match m.group1 with
  | some g => g
  | none => m.whole

/-- The claim's validator outcome: a missing validator counts as passed, a
raising one as failed. -/
def claimValidatorPassed (cat : CatEntry) (s : String) : Bool :=
  match cat.validator with
  | none => true
  | some v => (v s).getD false

/-- The claim's final confidence `min(1.0, contextScore + (4 - tier)·0.1)`
(in tenths: `min 10 (score + (4 - tier))`). -/
def claimFinalConfidence (cfg : Config) (text : List Char) (cat : CatEntry)
    (m : ReMatch) : ℤ :=
  min 10 (calculateContextScore cfg text (claimSpan m).startPos (claimSpan m).endPos
    cat.name + (4 - (cat.priority : ℤ)))

/-- C4: the candidate's text and offsets come from the first capturing
group when present, else the whole match; final confidence is
`min(1.0, contextScore + (4 - priorityTier)·0.1)`; and the candidate is
emitted iff the validator passed (absent validator = passed) and final
confidence is strictly above the configured threshold, whose default
is 0.6. -/
theorem c4_emission (cfg : Config) (text : List Char) (cat : CatEntry)
    (m : ReMatch) :
    defaultConfig.confidenceThreshold = 6 ∧
    claimSpan m = pickSpan m ∧
    processOneMatch cfg text cat m =
      (if claimValidatorPassed cat (claimSpan m).text = true ∧
          cfg.confidenceThreshold < claimFinalConfidence cfg text cat m
        then some ⟨(claimSpan m).text, (claimSpan m).startPos, (claimSpan m).endPos,
          claimFinalConfidence cfg text cat m⟩
        else none) := by
  have hspan : claimSpan m = pickSpan m := by
    cases hm : m.group1 <;> simp [claimSpan, pickSpan, hm]
  refine ⟨rfl, hspan, ?_⟩
  simp only [processOneMatch, claimValidatorPassed, claimFinalConfidence, hspan]
  by_cases hp : cfg.confidenceThreshold <
      min 10 (calculateContextScore cfg text (pickSpan m).startPos (pickSpan m).endPos
        cat.name + (4 - (cat.priority : ℤ)))
  · cases hval : cat.validator with
    | none => simp [hp]
    | some v => cases hb : (v (pickSpan m).text).getD false <;> simp [hp, hb]
  · cases hval : cat.validator with
    | none => simp [hp]
    | some v => cases hb : (v (pickSpan m).text).getD false <;> simp [hp, hb]

/-! ## C10 — score bounds and the default threshold -/

/-- The context score always lies in `[0.7, 1.0]` (7 to 10 tenths): the
base is 0.7, keyword hits only add, and the cap is 1.0. -/
theorem calculateContextScore_bounds (cfg : Config) (text : List Char)
    (s e : Nat) (piiType : String) :
    7 ≤ calculateContextScore cfg text s e piiType ∧
      calculateContextScore cfg text s e piiType ≤ 10 := by
  simp only [calculateContextScore]
  rw [keywordScore_foldl]
  refine ⟨le_min (by norm_num) ?_, min_le_left _ _⟩
  have h0 : (0 : ℤ) ≤ ((assocGetD contextKeywords piiType []).countP
      (fun kw => containsChars kw.data (windowText cfg text s e)) : ℤ) :=
    Int.ofNat_nonneg _
  omega

/-- C10: the context score is in `[0.7, 1.0]`; with a priority tier ≤ 4
the final confidence is at least 0.7; every registry tier is ≤ 4 (in fact
1–3); and since the default threshold is 0.6 < 0.7, under the default
configuration the threshold comparison never rejects a validator-passing
match — a candidate is emitted exactly when its validator passes. -/
theorem c10_thresholdNeverRejects (cfg : Config) (text : List Char)
    (s e : Nat) (piiType : String) (cat : CatEntry) (m : ReMatch)
    (hp : cat.priority ≤ 4) :
    (7 ≤ calculateContextScore cfg text s e piiType ∧
      calculateContextScore cfg text s e piiType ≤ 10) ∧
    7 ≤ claimFinalConfidence cfg text cat m ∧
    (processOneMatch defaultConfig text cat m).isSome =
      claimValidatorPassed cat (pickSpan m).text ∧
    (∀ p ∈ registryPriorities, p.2 ≤ 4) ∧
    defaultConfig.confidenceThreshold = 6 := by
  have hcast : ((cat.priority : ℤ)) ≤ 4 := by exact_mod_cast hp
  have hspan : claimSpan m = pickSpan m := by
    cases hm : m.group1 <;> simp [claimSpan, pickSpan, hm]
  refine ⟨calculateContextScore_bounds cfg text s e piiType, ?_, ?_, by decide, rfl⟩
  · unfold claimFinalConfidence
    have hb := calculateContextScore_bounds cfg text (claimSpan m).startPos
      (claimSpan m).endPos cat.name
    refine le_min (by norm_num) ?_
    omega
  · have hconf : defaultConfig.confidenceThreshold <
        min 10 (calculateContextScore defaultConfig text (pickSpan m).startPos
          (pickSpan m).endPos cat.name + (4 - (cat.priority : ℤ))) := by
      have hb := calculateContextScore_bounds defaultConfig text (pickSpan m).startPos
        (pickSpan m).endPos cat.name
      refine lt_min (by decide) ?_
      show (6 : ℤ) < _
      omega
    simp only [processOneMatch, claimValidatorPassed]
    rw [decide_eq_true hconf]
    cases hval : cat.validator with
    | none => simp
    | some v => cases hb : (v (pickSpan m).text).getD false <;> simp [hb]

/-- C10 witness. -/
theorem c10_witness :
    (⟨"MOBILE", 1, none, []⟩ : CatEntry).priority ≤ 4 ∧
    (7 ≤ calculateContextScore defaultConfig ("x".data) 0 1 "PAN" ∧
      calculateContextScore defaultConfig ("x".data) 0 1 "PAN" ≤ 10) ∧
    (processOneMatch defaultConfig ("x".data) ⟨"MOBILE", 1, none, []⟩
        ⟨⟨"t", 0, 1⟩, none⟩).isSome =
      claimValidatorPassed ⟨"MOBILE", 1, none, []⟩
        (pickSpan ⟨⟨"t", 0, 1⟩, none⟩).text :=
  ⟨by decide,
    (c10_thresholdNeverRejects defaultConfig ("x".data) 0 1 "PAN"
      ⟨"MOBILE", 1, none, []⟩ ⟨⟨"t", 0, 1⟩, none⟩ (by decide)).1,
    (c10_thresholdNeverRejects defaultConfig ("x".data) 0 1 "PAN"
      ⟨"MOBILE", 1, none, []⟩ ⟨⟨"t", 0, 1⟩, none⟩ (by decide)).2.2.1⟩

/-! ## C1 — the per-category non-overlap invariant -/

/-- Interval intersection is symmetric. -/
theorem overlapsB_comm (a b : PiiMatch) : overlapsB a b = overlapsB b a := by
  simp only [overlapsB]
  rw [Bool.and_comm]

/-- The greedy acceptance loop keeps its accumulator pairwise
non-intersecting. -/
theorem pairwise_greedyFilter (rest : List PiiMatch) :
    ∀ acc : List PiiMatch,
      acc.Pairwise (fun a b => overlapsB a b = false) →
      (greedyFilter acc rest).Pairwise (fun a b => overlapsB a b = false) := by
  induction rest with
  | nil => intro acc h; exact h
  | cons m ms ih =>
    intro acc h
    by_cases hm : (acc.any (fun e => overlapsB m e)) = true
    · simp only [greedyFilter, if_pos hm]
      exact ih acc h
    · simp only [greedyFilter, if_neg hm]
      refine ih (acc ++ [m]) ?_
      rw [List.pairwise_append]
      refine ⟨h, List.pairwise_singleton _ _, ?_⟩
      intro a ha b hb
      rw [List.mem_singleton] at hb
      rw [hb, overlapsB_comm]
      have hfalse : ∀ x ∈ acc, ¬ (overlapsB m x = true) :=
        List.any_eq_false.mp (Bool.not_eq_true _ ▸ hm)
      exact Bool.not_eq_true _ ▸ (hfalse a ha)

/-- `_remove_overlapping_matches` always returns a pairwise
non-intersecting list. -/
theorem pairwise_removeOverlapping (ms : List PiiMatch) :
    (removeOverlappingMatches ms).Pairwise (fun a b => overlapsB a b = false) := by
  cases ms with
  | nil => simp [removeOverlappingMatches]
  | cons x xs =>
    simp only [removeOverlappingMatches, List.isEmpty_cons, Bool.false_eq_true, if_neg]
    exact pairwise_greedyFilter _ [] List.Pairwise.nil

/-- Every entry produced by stage 1 carries an overlap-resolved list. -/
theorem stage1_entries_pairwise (cfg : Config) (text : List Char) :
    ∀ (cats : List CatEntry) (acc : Detections),
      (∀ p ∈ acc, p.2.Pairwise (fun a b => overlapsB a b = false)) →
      ∀ p ∈ cats.foldl (fun acc cat =>
          let ms := processCategory cfg text cat
          if ms.isEmpty then acc
          else acc ++ [(cat.name, removeOverlappingMatches ms)]) acc,
        p.2.Pairwise (fun a b => overlapsB a b = false) := by
  intro cats
  induction cats with
  | nil => intro acc h p hp; exact h p hp
  | cons c cs ih =>
    intro acc h p hp
    rw [List.foldl_cons] at hp
    refine ih _ ?_ p hp
    intro q hq
    dsimp only at hq
    by_cases he : (processCategory cfg text c).isEmpty = true
    · rw [if_pos he] at hq
      exact h q hq
    · rw [if_neg he] at hq
      rcases List.mem_append.mp hq with hq' | hq'
      · exact h q hq'
      · rw [List.mem_singleton] at hq'
        subst hq'
        exact pairwise_removeOverlapping _

/-- Entries of `assocExtend` either existed before or are the extended
binding of the extension key. -/
theorem assocExtend_entries (l : Detections) (k : String) (es : List PiiMatch) :
    ∀ p ∈ assocExtend l k es,
      p ∈ l ∨ ∃ q, q ∈ l ∧ q.1 = k ∧ p = (q.1, q.2 ++ es) := by
  induction l with
  | nil => intro p hp; cases hp
  | cons q rest ih =>
    obtain ⟨k', v'⟩ := q
    intro p hp
    unfold assocExtend at hp
    by_cases hk : k' = k
    · rw [if_pos hk] at hp
      rcases List.mem_cons.mp hp with rfl | hp'
      · exact Or.inr ⟨(k', v'), List.mem_cons_self _ _, hk, rfl⟩
      · exact Or.inl (List.mem_cons_of_mem _ hp')
    · rw [if_neg hk] at hp
      rcases List.mem_cons.mp hp with rfl | hp'
      · exact Or.inl (List.mem_cons_self _ _)
      · rcases ih p hp' with h | ⟨r, hr, hrk, hpr⟩
        · exact Or.inl (List.mem_cons_of_mem _ h)
        · exact Or.inr ⟨r, List.mem_cons_of_mem _ hr, hrk, hpr⟩

/-- Merging auxiliary entities never touches the bindings of a category
that none of the auxiliary keys name. -/
theorem mergeNlp_entries_at (nlp : Detections) (cat : String) :
    ∀ det : Detections, (∀ p ∈ nlp, p.1 ≠ cat) →
      (∀ p ∈ det, p.1 = cat → p.2.Pairwise (fun a b => overlapsB a b = false)) →
      ∀ p ∈ mergeNlp det nlp, p.1 = cat →
        p.2.Pairwise (fun a b => overlapsB a b = false) := by
  induction nlp with
  | nil => intro det _ hdet p hp; exact hdet p hp
  | cons q nlp' ih =>
    intro det hnlp hdet p hp
    unfold mergeNlp at hp
    rw [List.foldl_cons] at hp
    refine ih _ (fun r hr => hnlp r (List.mem_cons_of_mem q hr)) ?_ p hp
    intro r hr hrcat
    have hqcat : q.1 ≠ cat := hnlp q (List.mem_cons_self q nlp')
    rcases hfind : assocFind det q.1 with _ | w
    · rw [hfind] at hr
      rcases List.mem_append.mp hr with hr' | hr'
      · exact hdet r hr' hrcat
      · rw [List.mem_singleton] at hr'
        subst hr'
        exact absurd hrcat hqcat
    · rw [hfind] at hr
      rcases assocExtend_entries det q.1 q.2 r hr with hr' | ⟨u, hu, huk, hru⟩
      · exact hdet r hr' hrcat
      · subst hru
        exact absurd (huk ▸ hrcat) hqcat

/-- The refinement fold only ever adds filtered versions of its input's
entries to the accumulator. -/
theorem refineDetections_foldl_entries :
    ∀ (dets acc : Detections),
      ∀ p ∈ dets.foldl (fun acc p =>
          let r := p.2.filter (keepMatch p.1)
          if r.isEmpty then acc else acc ++ [(p.1, r)]) acc,
        p ∈ acc ∨ ∃ q, q ∈ dets ∧ p.1 = q.1 ∧ p.2 = q.2.filter (keepMatch q.1) := by
  intro dets
  induction dets with
  | nil => intro acc p hp; exact Or.inl hp
  | cons d ds ih =>
    intro acc p hp
    rw [List.foldl_cons] at hp
    rcases ih _ p hp with hstep | ⟨q, hq, h1, h2⟩
    · dsimp only at hstep
      by_cases he : (d.2.filter (keepMatch d.1)).isEmpty = true
      · rw [if_pos he] at hstep
        exact Or.inl hstep
      · rw [if_neg he] at hstep
        rcases List.mem_append.mp hstep with hp' | hp'
        · exact Or.inl hp'
        · rw [List.mem_singleton] at hp'
          subst hp'
          exact Or.inr ⟨d, List.mem_cons_self d ds, rfl, rfl⟩
    · exact Or.inr ⟨q, List.mem_cons_of_mem d hq, h1, h2⟩

/-- Every entry of the refinement stage is a filtered version of an entry
of its input. -/
theorem refineDetections_entries (det : Detections) :
    ∀ p ∈ refineDetections det,
      ∃ q, q ∈ det ∧ p.1 = q.1 ∧ p.2 = q.2.filter (keepMatch q.1) := by
  intro p hp
  rcases refineDetections_foldl_entries det [] p hp with h | h
  · cases h
  · exact h

/-- A dictionary lookup that succeeds names a binding of the list. -/
theorem assocFind_mem (l : Detections) (k : String) (v : List PiiMatch)
    (h : assocFind l k = some v) : (k, v) ∈ l := by
  induction l with
  | nil => cases h
  | cons p rest ih =>
    obtain ⟨k', v'⟩ := p
    unfold assocFind at h
    by_cases hk : k' = k
    · rw [if_pos hk] at h
      injection h with h
      subst hk
      subst h
      exact List.mem_cons_self _ _
    · rw [if_neg hk] at h
      exact List.mem_cons_of_mem _ (ih h)

/-- C1 counterexample: the auxiliary (NLP) entities are merged into the
result of `detect_pii` with NO overlap resolution. Feeding two
intersecting `NLP_PERSON` entities — spaCy is an external collaborator and
nothing in this code deduplicates its output — both survive to the final
dictionary, so two spans of one category intersect. -/
theorem c1_counterexample :
    assocFind (detectPii defaultConfig ("John Smith called".data) []
        [("NLP_PERSON", [⟨"John Smith", 0, 10, 8⟩, ⟨"John", 0, 4, 8⟩])]) "NLP_PERSON" =
      some [⟨"John Smith", 0, 10, 8⟩, ⟨"John", 0, 4, 8⟩] ∧
    overlapsB ⟨"John Smith", 0, 10, 8⟩ ⟨"John", 0, 4, 8⟩ = true :=
  ⟨by decide, by decide⟩

/-- C1 amended: the non-overlap invariant holds for every category that
the auxiliary entity detector does not name — in particular for all
pattern-registry categories (NLP categories are namespaced `NLP_`). Spans
under such a category in the `detect_pii` result are pairwise
non-intersecting. For `NLP_`-prefixed categories the code applies no
overlap resolution, so those lists are only as disjoint as the auxiliary
detector's output (see the counterexample). -/
theorem c1_amended (cfg : Config) (text : List Char) (cats : List CatEntry)
    (nlp : Detections) (cat : String) (ms : List PiiMatch)
    (hnlp : ∀ p ∈ nlp, p.1 ≠ cat)
    (hfind : assocFind (detectPii cfg text cats nlp) cat = some ms) :
    ms.Pairwise (fun a b => overlapsB a b = false) := by
  unfold detectPii at hfind
  by_cases ht : text.isEmpty = true
  · rw [if_pos ht] at hfind
    cases hfind
  · rw [if_neg ht] at hfind
    have hmem := assocFind_mem _ _ _ hfind
    obtain ⟨q, hq, hfst, hsnd⟩ := refineDetections_entries _ _ hmem
    have hfst' : cat = q.1 := hfst
    have hsnd' : ms = q.2.filter (keepMatch q.1) := hsnd
    have hq2 : q.2.Pairwise (fun a b => overlapsB a b = false) := by
      refine mergeNlp_entries_at nlp cat (stage1 cfg text cats)
        hnlp ?_ q hq hfst'.symm
      intro p hp _
      exact stage1_entries_pairwise cfg text cats [] (by simp) p hp
    rw [hsnd']
    exact hq2.filter _

/-- C1 witness. -/
theorem c1_witness :
    (∀ p ∈ ([] : Detections), p.1 ≠ "MOBILE") ∧
    assocFind (detectPii defaultConfig ("9876543210".data)
        [⟨"MOBILE", 1, none, [⟨⟨"9876543210", 0, 10⟩, none⟩, ⟨⟨"987654321", 0, 9⟩, none⟩]⟩]
        []) "MOBILE" = some [⟨"9876543210", 0, 10, 10⟩] ∧
    ([⟨"9876543210", 0, 10, 10⟩] : List PiiMatch).Pairwise
      (fun a b => overlapsB a b = false) :=
  ⟨by decide, by decide,
    c1_amended defaultConfig ("9876543210".data)
      [⟨"MOBILE", 1, none, [⟨⟨"9876543210", 0, 10⟩, none⟩, ⟨⟨"987654321", 0, 9⟩, none⟩]⟩]
      [] "MOBILE" [⟨"9876543210", 0, 10, 10⟩] (by decide) (by decide)⟩

end Redact
